import Mathlib

/-!
# A verification development for the `csvlinter` CSV validator

This file gives a shallow embedding, in Lean 4, of the core of the
`csvlinter` repository: the streaming CSV parser (`internal/parser`),
the JSON-Schema row validator's type-coercion step (`internal/schema`),
the schema-file resolver (`internal/schema/resolve.go`) and the
validation engine (`internal/validator`).  Go strings are modelled as
Lean `String` (fields) or `List Char` (raw text); Go byte slices as
`List Nat` with each entry a byte value; Go `error` returns as
`Option`/`Except`.  Stateful streaming (the `csv.Reader` pulled one
record at a time) is modelled by explicit lists of records, consumed in
document order exactly as the engine's loop does.

External library behaviour that the code relies on is modelled at the
granularity the theorems need:
* `unicode/utf8.Valid` is embedded in full (`utf8Valid`);
* `encoding/csv` is embedded for quote-free input: records are obtained
  by splitting on newlines, stripping a trailing carriage return,
  skipping blank lines (Go's reader does not emit a record for a blank
  line) and splitting fields on the delimiter;
* the `jsonschema` engine's post-coercion validation step is an opaque
  parameter (`valFn`), since the claims under study only concern what
  value is handed to it, not its verdict.
-/

set_option autoImplicit false

namespace Csvlinter

/-- `validator.Error` (and the identically shaped `validator.Warning`):
a CLI-facing finding `{LineNumber, Field, Message, Value, Type}`. -/
structure LintError where
  lineNumber : Nat
  field : String
  message : String
  value : String
  etype : String
  deriving DecidableEq, Repr

/-- `validator.Results`: the aggregate returned by `Validator.Validate`.
The Go struct also carries a formatted `Duration` string, which is
wall-clock dependent and therefore omitted from the embedding. -/
structure Results where
  file : String
  totalRows : Nat
  errors : List LintError
  warnings : List LintError
  valid : Bool
  schemaUsed : Bool
  deriving DecidableEq, Repr

/-- `schema.ValidationError`: a leaf-level schema violation. -/
structure ValidationError where
  field : String
  message : String
  value : String
  deriving DecidableEq, Repr

/-- `parser.Row`: one CSV record plus the reader's line number. The Go
struct also carries a reference to the headers, which adds nothing to
the claims and is omitted. -/
structure Row where
  lineNumber : Nat
  data : List String
  deriving DecidableEq, Repr

/-- `Row.IsEmpty` from `internal/parser`: zero fields, or a single empty
field, or all fields empty. -/
def Row.isEmpty (r : Row) : Bool :=
  if r.data.length = 0 then true
  else if r.data.length = 1 ∧ r.data.headI = "" then true
  else r.data.all (fun f => f = "")

/-! ## UTF-8 validity (`unicode/utf8.Valid`) -/

/-- The byte-level acceptor behind `unicode/utf8.Valid`, one byte per
step.  `need` is the number of continuation bytes still expected and
`[lo, hi]` the accepted range of the next byte (Go's `acceptRanges`:
`0xE0`/`0xF0` exclude overlong encodings, `0xED` excludes surrogates,
`0xF4` bounds at `U+10FFFF`; after the first continuation byte the
range is always `[0x80, 0xBF]`). -/
def utf8ValidAux : Nat → Nat → Nat → List Nat → Bool
  | 0, _, _, [] => true
  | 0, _, _, b :: rest =>
    if b < 0x80 then utf8ValidAux 0 0 0 rest
    else if 0xC2 ≤ b && b ≤ 0xDF then utf8ValidAux 1 0x80 0xBF rest
    else if b = 0xE0 then utf8ValidAux 2 0xA0 0xBF rest
    else if b = 0xED then utf8ValidAux 2 0x80 0x9F rest
    else if 0xE1 ≤ b && b ≤ 0xEF then utf8ValidAux 2 0x80 0xBF rest
    else if b = 0xF0 then utf8ValidAux 3 0x90 0xBF rest
    else if b = 0xF4 then utf8ValidAux 3 0x80 0x8F rest
    else if 0xF1 ≤ b && b ≤ 0xF3 then utf8ValidAux 3 0x80 0xBF rest
    else false
  | _ + 1, _, _, [] => false
  | need + 1, lo, hi, b :: rest =>
    if lo ≤ b && b ≤ hi then utf8ValidAux need 0x80 0xBF rest else false
termination_by structural _ _ _ l => l

/-- `unicode/utf8.Valid` on a byte sequence. -/
def utf8Valid (l : List Nat) : Bool := utf8ValidAux 0 0 0 l

/-- Decoding of a (valid) UTF-8 byte sequence into characters, used after
`utf8Valid` has succeeded, mirroring how the Go code re-reads the
buffered bytes as text.  On malformed suffixes (never reached after a
successful `utf8Valid`) it stops. -/
def u8decode : List Nat → List Char
  | [] => []
  | b :: rest =>
    if b < 0x80 then Char.ofNat b :: u8decode rest
    else if b < 0xE0 then
      match rest with
      | b1 :: r1 => Char.ofNat ((b % 0x20) * 0x40 + b1 % 0x40) :: u8decode r1
      | [] => []
    else if b < 0xF0 then
      match rest with
      | b1 :: b2 :: r2 =>
        Char.ofNat ((b % 0x10) * 0x1000 + (b1 % 0x40) * 0x40 + b2 % 0x40) :: u8decode r2
      | _ => []
    else
      match rest with
      | b1 :: b2 :: b3 :: r3 =>
        Char.ofNat ((b % 0x8) * 0x40000 + (b1 % 0x40) * 0x1000 +
          (b2 % 0x40) * 0x40 + b3 % 0x40) :: u8decode r3
      | _ => []
termination_by structural l => l

/-! ## CSV record splitting (`encoding/csv`, quote-free subset) -/

/-- Split a character list at every occurrence of `sep` (like Go's
line/field splitting; `splitListOn sep [] = [[]]`). -/
def splitListOn (sep : Char) : List Char → List (List Char)
  | [] => [[]]
  | c :: cs =>
    match splitListOn sep cs with
    | [] => [[c]]
    | f :: rest => if c = sep then [] :: f :: rest else (c :: f) :: rest

/-- Drop a trailing carriage return, as Go's `csv.Reader` normalises
`\r\n` line endings. -/
def stripCR (l : List Char) : List Char :=
  if l.getLast? = some '\r' then l.dropLast else l

/-- All records produced by a `csv.Reader` with `Comma = delim` and
`FieldsPerRecord = -1` over quote-free text: split into lines, strip a
trailing `\r` from each, skip blank lines (Go's reader does not emit a
record for a blank line), split each remaining line into fields on the
delimiter. -/
def goCSVReadAll (delim : Char) (text : List Char) : List (List String) :=
  (((splitListOn '\n' text).map stripCR).filter (fun l => l ≠ [])).map
    (fun line => (splitListOn delim line).map (fun cs => String.mk cs))

/-- The sequence of `Row` values that repeated `Parser.ReadRow` calls
surface after `ReadHeaders` consumed the first record: one `Row` per
remaining record, in document order, with `LineNumber` incremented on
every successful read (header = line 1, first data row = line 2). -/
def mkRows (recs : List (List String)) : List Row :=
  recs.enum.map (fun p => ⟨p.1 + 2, p.2⟩)

/-! ## Schema row validation (`internal/schema`, coercion variant) -/

/-- The value a raw CSV field is turned into before schema validation.
In Go this is an `interface{}` holding an `int`, a `float64` or a
`string`; a `float64` is represented here by the accepted literal, since
no claim depends on float arithmetic. -/
inductive TypedValue where
  | intV (n : Int)
  | numV (lit : String)
  | strV (s : String)
  deriving DecidableEq, Repr

/-- `strconv.Atoi`: optional sign, at least one digit, nothing else,
result within the 64-bit `int` range. -/
def goAtoi (s : String) : Option Int :=
  match s.data with
  | [] => none
  | c :: cs =>
    let neg : Bool := c = '-'
    let digits : List Char := if c = '-' ∨ c = '+' then cs else c :: cs
    if digits = [] then none
    else if digits.all Char.isDigit then
      let v : Nat := digits.foldl (fun a d => a * 10 + (d.toNat - 48)) 0
      let i : Int := if neg then -(v : Int) else (v : Int)
      if -(2 ^ 63) ≤ i ∧ i ≤ 2 ^ 63 - 1 then some i else none
    else none

/-- Exponent part of a float literal: optional sign then at least one
digit. -/
def expOk (l : List Char) : Bool :=
  let body := match l with
    | c :: cs => if c = '+' ∨ c = '-' then cs else c :: cs
    | [] => []
  body ≠ [] && body.all Char.isDigit

/-- Mantissa-and-exponent part of a float literal (after the sign):
digits with at most one dot and at least one digit, optionally followed
by `e`/`E` and an exponent. -/
def mantissaOk (l : List Char) : Bool :=
  let mant := l.takeWhile (fun c => c.isDigit ∨ c = '.')
  let rest := l.dropWhile (fun c => c.isDigit ∨ c = '.')
  (mant.count '.' ≤ 1 && mant.any Char.isDigit) &&
    (match rest with
     | [] => true
     | e :: es => (e = 'e' ∨ e = 'E') && expOk es)

/-- Whether `strconv.ParseFloat(s, 64)` succeeds.  Modelled for the
decimal and `inf`/`infinity`/`nan` forms; hexadecimal floats, digit
underscores and decimal-exponent range overflow are outside the subset
the claims exercise. -/
def goParseFloatAccepts (s : String) : Bool :=
  let lower := s.data.map Char.toLower
  if lower = "nan".data then true
  else
    let body := match lower with
      | c :: cs => if c = '+' ∨ c = '-' then cs else c :: cs
      | [] => []
    if body = "inf".data ∨ body = "infinity".data then true
    else
      let raw := match s.data with
        | c :: cs => if c = '+' ∨ c = '-' then cs else c :: cs
        | [] => []
      mantissaOk raw

/-- The body of the per-type loop in `schema.Validator.ValidateRow`
(coercion variant): scan the property's declared `Types` in the order
the schema document lists them; at `"integer"` try `strconv.Atoi`, at
`"number"` try `strconv.ParseFloat`, breaking at the first success;
other type names are skipped; if nothing succeeds the raw string
stands. -/
def coerceField : List String → String → TypedValue
  | [], raw => .strV raw
  | t :: ts, raw =>
    if t = "integer" then
      match goAtoi raw with
      | some n => .intV n
      | none => coerceField ts raw
    else if t = "number" then
      if goParseFloatAccepts raw then .numV raw else coerceField ts raw
    else coerceField ts raw

/-- One trial of the coercion loop, as an `Option`: what `coerceField`
accepts at a single declared type name. -/
def tryPrim (raw : String) (t : String) : Option TypedValue :=
  if t = "integer" then (goAtoi raw).map .intV
  else if t = "number" then
    if goParseFloatAccepts raw then some (.numV raw) else none
  else none

/-- Modelled from the spec's words for claim C3 (a refinement foil, not
source code): coercion in the fixed order `integer` before `number`
before the raw string, independent of the order the schema document
declares the types. -/
def specCoerceFixedOrder (types : List String) (raw : String) : TypedValue :=
  if "integer" ∈ types ∧ (goAtoi raw).isSome then .intV ((goAtoi raw).getD 0)
  else if "number" ∈ types ∧ goParseFloatAccepts raw then .numV raw
  else .strV raw

/-- The field-name-to-value mapping `ValidateRow` builds: for each
header, the raw field, coerced when the compiled schema declares types
for that header (`v.schema.Properties[header]`, an ordered lookup). -/
def buildRowData (props : List (String × List String))
    (headers data : List String) : List (String × TypedValue) :=
  (headers.zip data).map (fun p =>
    match (props.find? (fun q => q.1 = p.1)).map Prod.snd with
    | some types => (p.1, coerceField types p.2)
    | none => (p.1, .strV p.2))

/-- `schema.Validator.ValidateRow` (coercion variant): short-circuit on
a column-count mismatch with one synthetic issue, otherwise build the
coerced mapping and hand it to the schema engine (`valFn`, opaque
here). -/
def validateRowGo (props : List (String × List String))
    (valFn : List (String × TypedValue) → List ValidationError)
    (headers data : List String) : List ValidationError :=
  if headers.length ≠ data.length then
    [⟨"row",
      "mismatched columns: headers=" ++ toString headers.length ++
        ", data=" ++ toString data.length, ""⟩]
  else valFn (buildRowData props headers data)

/-! ## The validation engine (`validator.Validator.Validate`) -/

/-- The engine's configured schema validator: `nil` or a function from
headers and row fields to schema issues (`schema.Validator.ValidateRow`
has this shape once the compiled schema is fixed). -/
abbrev SchemaV := Option (List String → List String → List ValidationError)

/-- The errors the engine's per-row loop body appends for one row: the
structure check (column count against the headers), then — when a schema
validator is configured — one schema-type error per issue, each stamped
with the row's line number. -/
def rowIssues (sv : SchemaV) (headers : List String) (r : Row) : List LintError :=
  (if r.data.length ≠ headers.length then
    [⟨r.lineNumber, "row",
      "column count mismatch: expected " ++ toString headers.length ++
        ", got " ++ toString r.data.length, "", "structure"⟩]
  else []) ++
  (match sv with
   | some f => (f headers r.data).map
       (fun e => ⟨r.lineNumber, e.field, e.message, e.value, "schema"⟩)
   | none => [])

/-- The engine's row loop: consume rows in order, incrementing the row
count and accumulating errors; after each row, if fail-fast is on and
any error has been recorded so far, stop without reading further rows.
Returns the accumulated errors and the number of rows consumed. -/
def runRows (sv : SchemaV) (ff : Bool) (headers : List String) :
    List Row → List LintError → Nat → List LintError × Nat
  | [], errs, n => (errs, n)
  | r :: rest, errs, n =>
    let errs' := errs ++ rowIssues sv headers r
    if ff ∧ errs' ≠ [] then (errs', n + 1)
    else runRows sv ff headers rest errs' (n + 1)

/-- The `Results` literal `Validate` returns when `ValidateUTF8` fails:
only `File`, `Valid`, `Errors` and `Duration` are set; `TotalRows` and
`SchemaUsed` are left at their zero values. -/
def encodingResults (name : String) : Results :=
  ⟨name, 0, [⟨0, "", "input contains invalid UTF-8 encoding", "", "encoding"⟩],
    [], false, false⟩

/-- `Validate` after a successful encoding check, over the record stream
the parser yields: an empty stream makes `ReadHeaders` fail with
`empty input: no headers found`, wrapped by the engine into an
operational error; otherwise the first record is the headers and the
row loop runs over the rest. -/
def goValidateRecords (sv : SchemaV) (ff : Bool) (name : String)
    (recs : List (List String)) : Except String Results :=
  match recs with
  | [] => .error "failed to read headers: empty input: no headers found"
  | headers :: rest =>
    let res := runRows sv ff headers (mkRows rest) [] 0
    .ok ⟨name, res.2, res.1, [], res.1.isEmpty, sv.isSome⟩

/-- `validator.Validator.Validate` end to end over the buffered input
bytes: validate UTF-8 over the whole buffer first (on failure return the
encoding `Results` with a `nil` error), then parse records and run the
row loop. -/
def goValidateBytes (sv : SchemaV) (ff : Bool) (name : String) (delim : Char)
    (input : List Nat) : Except String Results :=
  if utf8Valid input then
    goValidateRecords sv ff name (goCSVReadAll delim (u8decode input))
  else .ok (encodingResults name)

/-- Default of the `--max-size` flag: 10 MiB. -/
def stdinMaxDefault : Nat := 10 * 1024 * 1024

/-- The STDIN path of `validateAction`: the input is wrapped in
`io.LimitReader(os.Stdin, maxSize)`, which yields at most `maxSize`
bytes and reports end-of-input afterwards, so the engine sees the
truncated prefix. -/
def validateStdin (sv : SchemaV) (ff : Bool) (delim : Char) (maxSize : Nat)
    (input : List Nat) : Except String Results :=
  goValidateBytes sv ff "STDIN" delim (input.take maxSize)

/-! ## Chunked UTF-8 validation (`internal/parser/parser.go` variant)

The repository carries two versions of `Parser.ValidateUTF8`.  The
buffered version checks `utf8.Valid` over the whole input at once
(embedded above as the `utf8Valid input` guard).  The file-based version
reads the file through a 4096-byte buffer and checks each chunk
independently. -/

/-- Split a byte sequence into successive 4096-byte chunks, as the
file-based `ValidateUTF8` reads it. -/
def bufSplit (l : List Nat) : List (List Nat) :=
  if l = [] then [] else l.take 4096 :: bufSplit (l.drop 4096)
termination_by l.length
decreasing_by
  rename_i h
  have hpos : 0 < l.length := List.length_pos.mpr h
  simp [List.length_drop]
  omega

/-- The file-based `Parser.ValidateUTF8`: every 4096-byte chunk must
pass `utf8.Valid` on its own. -/
def validateUTF8File (input : List Nat) : Bool :=
  (bufSplit input).all utf8Valid

/-- The buffered `Parser.ValidateUTF8` (the `io.Reader` parser):
`utf8.Valid` over the whole buffered input. -/
def validateUTF8Buffered (input : List Nat) : Bool :=
  utf8Valid input

/-! ## Schema resolution (`internal/schema/resolve.go`)

The filesystem is abstracted to the set of its regular files; a path is
the list of its components from the root (so `filepath.Dir` is
`dropLast`, and the system root — whose parent is itself — is `[]`).
Go's `fileExists` demands a regular file (`!info.IsDir()`), so a marker
that exists as a directory (as a real `.git` usually is) never
satisfies it; `GoFS.files` accordingly lists regular files only. -/

/-- A filesystem snapshot: the paths of its regular files. -/
structure GoFS where
  files : List (List String)
  deriving DecidableEq, Repr

/-- `fileExists`: the path names a regular file. -/
def GoFS.fileExists (fs : GoFS) (p : List String) : Bool := p ∈ fs.files

/-- `filepath.Dir`: the parent directory (the root is its own parent). -/
def parentDir (p : List String) : List String := p.dropLast

/-- The project-wide schema file name. -/
def schemaFileName : String := "csvlinter.schema.json"

/-- `projectRootIndicators`. -/
def projectRootIndicators : List String := [".git", "package.json"]

/-- `isProjectRoot`: some marker exists (as a regular file) in `dir`. -/
def isProjectRoot (fs : GoFS) (dir : List String) : Bool :=
  projectRootIndicators.any (fun m => fs.fileExists (dir ++ [m]))

/-- `isSystemRoot`: the directory's parent equals itself. -/
def isSystemRoot (dir : List String) : Bool := parentDir dir = dir

/-- The upward walk of `ResolveSchema` (step 3): at each directory,
first test the stop predicate (project root or system root) and break
with no further check if it holds; otherwise check the directory's own
`csvlinter.schema.json` and ascend. -/
def walkUp (fs : GoFS) (dir : List String) : Option (List String) :=
  if isProjectRoot fs dir || isSystemRoot dir then none
  else if fs.fileExists (dir ++ [schemaFileName]) then some (dir ++ [schemaFileName])
  else if parentDir dir = dir then none
  else walkUp fs (parentDir dir)
termination_by dir.length
decreasing_by
  rename_i h3
  have hne : dir ≠ [] := by
    intro h0
    exact h3 (by simp [h0, parentDir])
  have hpos : 0 < dir.length := List.length_pos.mpr hne
  simp [parentDir, List.length_dropLast]
  omega

/-- `ResolveSchema`, with the CSV's directory and base name (without
extension) already split out of the path: first
`<dir>/<name>.schema.json`, then `<dir>/csvlinter.schema.json`, then the
upward walk starting at `<dir>`. -/
def resolveSchema (fs : GoFS) (csvDir : List String) (csvName : String) :
    Option (List String) :=
  if fs.fileExists (csvDir ++ [csvName ++ ".schema.json"]) then
    some (csvDir ++ [csvName ++ ".schema.json"])
  else if fs.fileExists (csvDir ++ [schemaFileName]) then
    some (csvDir ++ [schemaFileName])
  else walkUp fs csvDir

/-! ## Helper lemmas -/

/-- One-step unfolding of the upward walk (its well-founded equation). -/
theorem walkUp_unfold (fs : GoFS) (dir : List String) :
    walkUp fs dir =
      if isProjectRoot fs dir || isSystemRoot dir then none
      else if fs.fileExists (dir ++ [schemaFileName]) then some (dir ++ [schemaFileName])
      else if parentDir dir = dir then none
      else walkUp fs (parentDir dir) := by
  conv_lhs => rw [walkUp]

/-- One-step unfolding of the 4096-byte chunking. -/
theorem bufSplit_unfold (l : List Nat) :
    bufSplit l = if l = [] then [] else l.take 4096 :: bufSplit (l.drop 4096) := by
  conv_lhs => rw [bufSplit]

/-- A run of ASCII bytes at the front is transparent to UTF-8 validity. -/
theorem utf8Valid_replicate97 (n : Nat) (rest : List Nat) :
    utf8Valid (List.replicate n 97 ++ rest) = utf8Valid rest := by
  induction n with
  | zero => simp
  | succ n ih =>
    rw [List.replicate_succ, List.cons_append]
    exact ih

/-- The rows the parser surfaces are exactly the records after the
header, in order. -/
theorem mkRows_map_data (recs : List (List String)) :
    (mkRows recs).map Row.data = recs := by
  have h : (Row.data ∘ fun p : Nat × List String => (⟨p.1 + 2, p.2⟩ : Row)) = Prod.snd := rfl
  simp only [mkRows, List.map_map, h]
  exact List.enum_map_snd recs

/-- As many surfaced rows as records. -/
theorem mkRows_length (recs : List (List String)) :
    (mkRows recs).length = recs.length := by
  simp [mkRows]

/-- The `i`-th surfaced row is the `i`-th record stamped with line
`i + 2` (header = line 1, first data row = line 2). -/
theorem mkRows_getElem? (recs : List (List String)) (i : Nat) :
    (mkRows recs)[i]? = (recs[i]?).map (fun d => (⟨i + 2, d⟩ : Row)) := by
  simp only [mkRows, List.getElem?_map, List.getElem?_enum, Option.map_map]
  cases recs[i]? <;> rfl

/-- The row loop on an empty stream. -/
theorem runRows_nil (sv : SchemaV) (ff : Bool) (hd : List String)
    (errs : List LintError) (n : Nat) : runRows sv ff hd [] errs n = (errs, n) := rfl

/-- One step of the row loop. -/
theorem runRows_cons (sv : SchemaV) (ff : Bool) (hd : List String) (r : Row)
    (rows : List Row) (errs : List LintError) (n : Nat) :
    runRows sv ff hd (r :: rows) errs n =
      if ff ∧ errs ++ rowIssues sv hd r ≠ [] then (errs ++ rowIssues sv hd r, n + 1)
      else runRows sv ff hd rows (errs ++ rowIssues sv hd r) (n + 1) := rfl

/-- Rows producing no errors are consumed transparently: they bump the
row count and leave the (empty) error list alone, under any fail-fast
setting. -/
theorem runRows_clean_pre (sv : SchemaV) (ff : Bool) (hd : List String)
    (pre rows : List Row) (n : Nat)
    (hpre : ∀ x ∈ pre, rowIssues sv hd x = []) :
    runRows sv ff hd (pre ++ rows) [] n = runRows sv ff hd rows [] (n + pre.length) := by
  induction pre generalizing n with
  | nil => simp
  | cons r pre ih =>
    have hr : rowIssues sv hd r = [] := hpre r (List.mem_cons_self r pre)
    rw [List.cons_append, runRows_cons, hr, List.append_nil, if_neg (by simp)]
    rw [ih (n + 1) (fun x hx => hpre x (List.mem_cons_of_mem r hx))]
    rw [List.length_cons]
    congr 1
    omega

/-- With fail-fast on, the first offending row ends the loop: its errors
(and only its errors) are returned, and the row count includes it. -/
theorem runRows_ff_stop (sv : SchemaV) (hd : List String) (r : Row)
    (rows : List Row) (n : Nat) (hr : rowIssues sv hd r ≠ []) :
    runRows sv true hd (r :: rows) [] n = (rowIssues sv hd r, n + 1) := by
  rw [runRows_cons, List.nil_append, if_pos ⟨rfl, hr⟩]

/-- Without fail-fast the loop consumes every row. -/
theorem runRows_snd_noff (sv : SchemaV) (hd : List String) (rows : List Row) :
    ∀ (errs : List LintError) (n : Nat),
      (runRows sv false hd rows errs n).2 = n + rows.length := by
  induction rows with
  | nil => intro errs n; simp [runRows_nil]
  | cons r rest ih =>
    intro errs n
    rw [runRows_cons, if_neg (by simp), ih]
    simp only [List.length_cons]
    omega

/-- `Validate` on a non-empty record stream. -/
theorem goValidateRecords_cons (sv : SchemaV) (ff : Bool) (name : String)
    (hd : List String) (rest : List (List String)) :
    goValidateRecords sv ff name (hd :: rest) =
      .ok ⟨name, (runRows sv ff hd (mkRows rest) [] 0).2,
        (runRows sv ff hd (mkRows rest) [] 0).1, [],
        (runRows sv ff hd (mkRows rest) [] 0).1.isEmpty, sv.isSome⟩ := rfl

/-! ## Claim C1 -/

/-- C1.  When the input is not valid UTF-8, `Validate` returns (with a
`nil` error) a `Results` with `Valid = false` and exactly one Error, of
type `"encoding"`; when the input is empty, so that no header record
exists, `Validate` returns no `Results` and propagates an operational
error stating `empty input: no headers found`. -/
theorem c1_encoding_result_empty_input_error (sv : SchemaV) (ff : Bool)
    (name : String) (delim : Char) (input : List Nat) :
    (utf8Valid input = false →
      goValidateBytes sv ff name delim input = .ok (encodingResults name) ∧
      (encodingResults name).valid = false ∧
      (encodingResults name).errors.length = 1 ∧
      ∀ e ∈ (encodingResults name).errors, e.etype = "encoding") ∧
    (input = [] →
      goValidateBytes sv ff name delim input =
        .error "failed to read headers: empty input: no headers found") := by
  constructor
  · intro h
    refine ⟨?_, rfl, rfl, ?_⟩
    · rw [goValidateBytes, if_neg (by simp [h])]
    · intro e he
      simp only [encodingResults, List.mem_singleton] at he
      rw [he]
  · intro h
    subst h
    rfl

/-- C1, exercised: the single byte `0xFF` is rejected as encoding, and
the empty input aborts with the headers error. -/
theorem c1_encoding_result_empty_input_error_witness :
    (goValidateBytes none false "f" ',' [255] = .ok (encodingResults "f") ∧
      (encodingResults "f").valid = false ∧
      (encodingResults "f").errors.length = 1 ∧
      ∀ e ∈ (encodingResults "f").errors, e.etype = "encoding") ∧
    goValidateBytes none false "f" ',' [] =
      .error "failed to read headers: empty input: no headers found" :=
  ⟨(c1_encoding_result_empty_input_error none false "f" ',' [255]).1 (by decide),
   (c1_encoding_result_empty_input_error none false "f" ',' []).2 rfl⟩

/-! ## Claim C2 -/

/-- C2.  For an input whose rows (in document order) split as a clean
prefix `preR`, a first offending row `rR`, and a tail `postR` containing
a further offending row, running `Validate` with fail-fast enabled
returns exactly the first offending row's errors (in document order) and
a `TotalRows` equal to the rows actually consumed, while the same run
with fail-fast disabled consumes every row, so its `TotalRows` is
strictly larger. -/
theorem c2_fail_fast_first_offending_row (sv : SchemaV) (name : String)
    (hd : List String) (rest : List (List String))
    (preR : List Row) (rR : Row) (postR : List Row)
    (hsplit : mkRows rest = preR ++ rR :: postR)
    (hpre : ∀ x ∈ preR, rowIssues sv hd x = [])
    (hr : rowIssues sv hd rR ≠ [])
    (hpost : ∃ x ∈ postR, rowIssues sv hd x ≠ []) :
    goValidateRecords sv true name (hd :: rest) =
      .ok ⟨name, preR.length + 1, rowIssues sv hd rR, [], false, sv.isSome⟩ ∧
    ∃ res, goValidateRecords sv false name (hd :: rest) = .ok res ∧
      res.totalRows = rest.length ∧ preR.length + 1 < res.totalRows := by
  have hrun : runRows sv true hd (mkRows rest) [] 0 = (rowIssues sv hd rR, preR.length + 1) := by
    rw [hsplit, runRows_clean_pre sv true hd preR (rR :: postR) 0 hpre,
      runRows_ff_stop sv hd rR postR (0 + preR.length) hr]
    congr 1
    omega
  have hlen : rest.length = preR.length + 1 + postR.length := by
    have h1 := congrArg List.length hsplit
    rw [mkRows_length] at h1
    simp only [List.length_append, List.length_cons] at h1
    omega
  have hpostne : postR ≠ [] := by
    rcases hpost with ⟨x, hx, _⟩
    intro h0
    rw [h0] at hx
    simp at hx
  constructor
  · rw [goValidateRecords_cons, hrun]
    have : (rowIssues sv hd rR).isEmpty = false := by
      cases e : rowIssues sv hd rR with
      | nil => exact absurd e hr
      | cons a l => rfl
    simp [this]
  · refine ⟨_, goValidateRecords_cons sv false name hd rest, ?_, ?_⟩
    · simp [runRows_snd_noff, mkRows_length]
    · simp only [runRows_snd_noff, mkRows_length, Nat.zero_add]
      have : 0 < postR.length := List.length_pos.mpr hpostne
      omega

/-- C2, exercised: headers `["a"]`, a clean first row, a short second
row, a short third row; fail-fast stops after row two with its single
structure error and `TotalRows = 2`, while the full run counts 3. -/
theorem c2_fail_fast_first_offending_row_witness :
    goValidateRecords none true "f" [["a"], ["x"], ["b", "c"], ["d", "e"]] =
      .ok ⟨"f", 2, rowIssues none ["a"] ⟨3, ["b", "c"]⟩, [], false, false⟩ ∧
    ∃ res, goValidateRecords none false "f" [["a"], ["x"], ["b", "c"], ["d", "e"]] = .ok res ∧
      res.totalRows = 3 ∧ 2 < res.totalRows :=
  c2_fail_fast_first_offending_row none "f" ["a"] [["x"], ["b", "c"], ["d", "e"]]
    [⟨2, ["x"]⟩] ⟨3, ["b", "c"]⟩ [⟨4, ["d", "e"]⟩]
    (by decide) (by decide) (by decide)
    ⟨⟨4, ["d", "e"]⟩, by decide, by decide⟩

/-! ## Claim C6 -/

/-- C6.  A data row whose field count differs from the header count gets
exactly one structure-type Error, stamped (like every error of that row)
with the row's `LineNumber`, which for the `i`-th data row is `i + 2`,
its 1-based position counting the header as line 1; in particular, on
input `"name,age\nJohn,30\nJane"` with delimiter `','` the single Error
is structure-typed with `LineNumber` 3 and message
`column count mismatch: expected 2, got 1`. -/
theorem c6_structure_error_line_numbers (sv : SchemaV) (hd : List String)
    (r : Row) (recs : List (List String)) (i : Nat)
    (hi : i < recs.length) (hmis : r.data.length ≠ hd.length) :
    (rowIssues sv hd r).filter (fun e => e.etype == "structure") =
      [⟨r.lineNumber, "row",
        "column count mismatch: expected " ++ toString hd.length ++
          ", got " ++ toString r.data.length, "", "structure"⟩] ∧
    (∀ e ∈ rowIssues sv hd r, e.lineNumber = r.lineNumber) ∧
    ((mkRows recs)[i]?).map Row.lineNumber = some (i + 2) ∧
    goValidateRecords none false "f" (goCSVReadAll ',' "name,age\nJohn,30\nJane".data) =
      .ok ⟨"f", 2, [⟨3, "row", "column count mismatch: expected 2, got 1", "",
        "structure"⟩], [], false, false⟩ := by
  refine ⟨?_, ?_, ?_, rfl⟩
  · simp only [rowIssues, if_pos hmis, List.filter_append]
    have h2 : ∀ l : List ValidationError,
        (l.map (fun e => (⟨r.lineNumber, e.field, e.message, e.value, "schema"⟩ : LintError))).filter
          (fun e => e.etype == "structure") = [] := by
      intro l
      induction l with
      | nil => rfl
      | cons a t ih => simp [ih]
    cases sv with
    | none => rfl
    | some f => rw [h2 (f hd r.data)]; rfl
  · intro e he
    simp only [rowIssues, if_pos hmis, List.mem_append] at he
    rcases he with he | he
    · rw [List.mem_singleton] at he
      rw [he]
    · cases sv with
      | none => simp at he
      | some f =>
        simp only [List.mem_map] at he
        obtain ⟨a, _, rfl⟩ := he
        rfl
  · rw [mkRows_getElem?, List.getElem?_eq_getElem hi]
    rfl

/-- C6, exercised at `headers = ["name","age"]`, `row = ["Jane"]` (line
3, the second data record). -/
theorem c6_structure_error_line_numbers_witness :
    (rowIssues none ["name", "age"] ⟨3, ["Jane"]⟩).filter (fun e => e.etype == "structure") =
      [⟨3, "row",
        "column count mismatch: expected " ++ toString (["name", "age"] : List String).length ++
          ", got " ++ toString (["Jane"] : List String).length, "", "structure"⟩] ∧
    (∀ e ∈ rowIssues none ["name", "age"] ⟨3, ["Jane"]⟩, e.lineNumber = 3) ∧
    ((mkRows [["John", "30"], ["Jane"]])[1]?).map Row.lineNumber = some (1 + 2) ∧
    goValidateRecords none false "f" (goCSVReadAll ',' "name,age\nJohn,30\nJane".data) =
      .ok ⟨"f", 2, [⟨3, "row", "column count mismatch: expected 2, got 1", "",
        "structure"⟩], [], false, false⟩ :=
  c6_structure_error_line_numbers none ["name", "age"] ⟨3, ["Jane"]⟩
    [["John", "30"], ["Jane"]] 1 (by decide) (by decide)

/-! ## Claim C7 -/

/-- C7.  The reader surfaces every record after the header to the
caller, in document order, with consecutive line numbers — it never
filters a record out, however empty — and `Row.IsEmpty` classifies
zero-field and single-empty-field records as empty for the caller's
optional use. -/
theorem c7_reader_surfaces_every_record (rest : List (List String)) (n : Nat) :
    (mkRows rest).map Row.data = rest ∧
    (mkRows rest).map Row.lineNumber = (List.range rest.length).map (fun i => i + 2) ∧
    Row.isEmpty ⟨n, []⟩ = true ∧ Row.isEmpty ⟨n, [""]⟩ = true := by
  refine ⟨mkRows_map_data rest, ?_, rfl, rfl⟩
  have h : (Row.lineNumber ∘ fun p : Nat × List String => (⟨p.1 + 2, p.2⟩ : Row)) =
      (fun i => i + 2) ∘ Prod.fst := rfl
  simp only [mkRows, List.map_map, h]
  rw [← List.map_map, List.enum_map_fst]

/-! ## Claim C9 (corrected) -/

/-- C9 counterexample: on invalid UTF-8 input with a schema validator
supplied, `Validate` returns the encoding `Results`, whose `SchemaUsed`
is `false` even though a schema was supplied — refuting the claim that
`SchemaUsed` is true exactly when a schema validator was supplied on
every produced `Results`. -/
theorem c9_schema_used_cex :
    goValidateBytes (some (fun _ _ => ([] : List ValidationError))) false "f" ',' [255] =
      .ok (encodingResults "f") ∧
    (encodingResults "f").schemaUsed = false ∧
    ((some (fun _ _ => ([] : List ValidationError)) : SchemaV)).isSome = true :=
  ⟨rfl, rfl, rfl⟩

/-- C9 as amended: on every `Results` produced on the non-encoding path,
`SchemaUsed` equals whether a schema validator was supplied; on the
encoding-failure path the `Results` literal leaves `SchemaUsed` at its
zero value, so it is always `false` there. -/
theorem c9_schema_used_flag (sv : SchemaV) (ff : Bool) (name : String)
    (delim : Char) (input : List Nat) :
    (utf8Valid input = true →
      ∀ res, goValidateBytes sv ff name delim input = .ok res →
        res.schemaUsed = sv.isSome) ∧
    (utf8Valid input = false →
      ∀ res, goValidateBytes sv ff name delim input = .ok res →
        res.schemaUsed = false) := by
  constructor
  · intro h res hres
    rw [goValidateBytes, if_pos (by simp [h])] at hres
    cases hrec : goCSVReadAll delim (u8decode input) with
    | nil =>
      rw [hrec] at hres
      exact absurd hres (by simp [goValidateRecords])
    | cons a l =>
      rw [hrec, goValidateRecords_cons] at hres
      simp only [Except.ok.injEq] at hres
      rw [← hres]
  · intro h res hres
    rw [goValidateBytes, if_neg (by simp [h])] at hres
    simp only [Except.ok.injEq] at hres
    rw [← hres]
    rfl

/-- C9 as amended, exercised on both paths. -/
theorem c9_schema_used_flag_witness :
    (⟨"f", 0, [], [], true, false⟩ : Results).schemaUsed = (none : SchemaV).isSome ∧
    (encodingResults "f").schemaUsed = false :=
  ⟨(c9_schema_used_flag none false "f" ',' [97]).1 (by decide) _ rfl,
   (c9_schema_used_flag none false "f" ',' [255]).2 (by decide) _ rfl⟩

/-! ## Claim C10 -/

/-- C10.  With a schema validator configured, a data row whose field
count differs from the header count yields exactly two Errors with the
row's line number: the engine's own structure-type error, then the
schema-type error carrying `ValidateRow`'s synthetic
`mismatched columns` issue with field `"row"`, because the engine still
invokes the schema validator on the misaligned row. -/
theorem c10_mismatch_two_errors (props : List (String × List String))
    (valFn : List (String × TypedValue) → List ValidationError)
    (headers data : List String) (ln : Nat)
    (hm : headers.length ≠ data.length) :
    rowIssues (some (validateRowGo props valFn)) headers ⟨ln, data⟩ =
      [⟨ln, "row",
        "column count mismatch: expected " ++ toString headers.length ++
          ", got " ++ toString data.length, "", "structure"⟩,
       ⟨ln, "row",
        "mismatched columns: headers=" ++ toString headers.length ++
          ", data=" ++ toString data.length, "", "schema"⟩] := by
  simp only [rowIssues, validateRowGo, if_pos (Ne.symm hm), if_pos hm]
  rfl

/-- C10, exercised at headers `["a","b"]`, row `["x"]`, line 3. -/
theorem c10_mismatch_two_errors_witness :
    rowIssues (some (validateRowGo [] (fun _ => []))) ["a", "b"] ⟨3, ["x"]⟩ =
      [⟨3, "row",
        "column count mismatch: expected " ++ toString (["a", "b"] : List String).length ++
          ", got " ++ toString (["x"] : List String).length, "", "structure"⟩,
       ⟨3, "row",
        "mismatched columns: headers=" ++ toString (["a", "b"] : List String).length ++
          ", data=" ++ toString (["x"] : List String).length, "", "schema"⟩] :=
  c10_mismatch_two_errors [] (fun _ => []) ["a", "b"] ["x"] 3 (by decide)

/-! ## Claim C3 (corrected) -/

/-- C3 counterexample: with declared types `["number", "integer"]` and
raw field `"5"`, the code coerces to a number (the declaration order
wins), while the claimed fixed order `integer`-before-`number` would
coerce to the integer `5` — a different value. -/
theorem c3_fixed_order_cex :
    coerceField ["number", "integer"] "5" = TypedValue.numV "5" ∧
    specCoerceFixedOrder ["number", "integer"] "5" = TypedValue.intV 5 ∧
    TypedValue.numV "5" ≠ TypedValue.intV 5 :=
  ⟨by decide, by decide, by decide⟩

/-- C3 as amended: the per-row coercion tries the declared types in the
order the schema document lists them — `integer` entries via `Atoi`,
`number` entries via `ParseFloat`, other entries skipped — and the first
successful conversion (falling back to the raw string) is the value that
gets validated. -/
theorem c3_coercion_in_declared_order (types : List String) (raw : String)
    (props : List (String × List String))
    (valFn : List (String × TypedValue) → List ValidationError)
    (headers data : List String) :
    coerceField types raw =
      ((types.filterMap (tryPrim raw)).head?).getD (TypedValue.strV raw) ∧
    (headers.length = data.length →
      validateRowGo props valFn headers data = valFn (buildRowData props headers data)) := by
  constructor
  · induction types with
    | nil => rfl
    | cons t ts ih =>
      by_cases h1 : t = "integer"
      · cases hA : goAtoi raw with
        | some n => simp [coerceField, tryPrim, h1, hA, List.filterMap_cons]
        | none => simp [coerceField, tryPrim, h1, hA, List.filterMap_cons, ih]
      · by_cases h2 : t = "number"
        · cases hP : goParseFloatAccepts raw with
          | true => simp [coerceField, tryPrim, h1, h2, hP, List.filterMap_cons]
          | false => simp [coerceField, tryPrim, h1, h2, hP, List.filterMap_cons, ih]
        · simp only [coerceField, tryPrim, List.filterMap_cons, if_neg h1, if_neg h2]
          exact ih
  · intro h
    rw [validateRowGo, if_neg (fun hne => hne h)]

/-- C3 as amended, exercised at declared types `["integer"]`, raw `"7"`,
and a matching one-column row. -/
theorem c3_coercion_in_declared_order_witness :
    coerceField ["integer"] "7" =
      (((["integer"] : List String).filterMap (tryPrim "7")).head?).getD (TypedValue.strV "7") ∧
    validateRowGo [] (fun _ => ([] : List ValidationError)) ["a"] ["7"] =
      (fun _ => ([] : List ValidationError)) (buildRowData [] ["a"] ["7"]) :=
  ⟨(c3_coercion_in_declared_order ["integer"] "7" [] (fun _ => []) ["a"] ["7"]).1,
   (c3_coercion_in_declared_order ["integer"] "7" [] (fun _ => []) ["a"] ["7"]).2 rfl⟩

/-! ## Claim C4 (corrected) -/

/-- A filesystem for the C4 counterexample: directory `/a` is a project
root (it holds a regular file `package.json`) and also holds
`csvlinter.schema.json`; the CSV sits in `/a/b`. -/
def fsC4 : GoFS := ⟨[["a", "package.json"], ["a", "csvlinter.schema.json"]]⟩

/-- C4 counterexample: the ancestor `/a` is a project root whose own
`csvlinter.schema.json` exists, yet the walk from `/a/b` stops at `/a`
without checking it — `ResolveSchema` returns nothing, where the claim
says the root's own schema file is still checked and returned. -/
theorem c4_project_root_not_checked_cex :
    resolveSchema fsC4 ["a", "b"] "data" = none ∧
    fsC4.fileExists (["a"] ++ [schemaFileName]) = true ∧
    isProjectRoot fsC4 ["a"] = true ∧
    isSystemRoot ["a"] = false := by
  have w1 : walkUp fsC4 ["a"] = none := by
    rw [walkUp_unfold, if_pos (by decide)]
  have w2 : walkUp fsC4 ["a", "b"] = none := by
    rw [walkUp_unfold, if_neg (by decide), if_neg (by decide), if_neg (by decide)]
    exact w1
  refine ⟨?_, by decide, by decide, by decide⟩
  simp only [resolveSchema]
  rw [if_neg (by decide), if_neg (by decide)]
  exact w2

/-- C4 as amended: at each directory the walk first tests the stop
predicate — a project root (a marker present as a regular file; a marker
that exists as a directory, as a real `.git` is, does not count) or the
filesystem root — and if it holds, stops *without* checking that
directory's own `csvlinter.schema.json` and never ascends further;
otherwise it checks the directory's candidate and returns it when
present.  (The start directory itself is covered by the earlier
same-directory step of `ResolveSchema`.) -/
theorem c4_walk_stop_semantics (fs : GoFS) (dir : List String) :
    ((isProjectRoot fs dir = true ∨ isSystemRoot dir = true) → walkUp fs dir = none) ∧
    (isProjectRoot fs dir = false → isSystemRoot dir = false →
      fs.fileExists (dir ++ [schemaFileName]) = true →
      walkUp fs dir = some (dir ++ [schemaFileName])) := by
  constructor
  · intro h
    rw [walkUp_unfold, if_pos (by rcases h with h | h <;> simp [h])]
  · intro h1 h2 h3
    rw [walkUp_unfold, if_neg (by simp [h1, h2]), if_pos h3]

/-- C4 as amended, exercised: the walk yields nothing at a project root
even though the candidate exists there, and yields the candidate at a
marker-free non-root directory. -/
theorem c4_walk_stop_semantics_witness :
    walkUp fsC4 ["a"] = none ∧
    walkUp (⟨[["a", "csvlinter.schema.json"]]⟩ : GoFS) ["a"] =
      some (["a"] ++ [schemaFileName]) :=
  ⟨(c4_walk_stop_semantics fsC4 ["a"]).1 (Or.inl (by decide)),
   (c4_walk_stop_semantics ⟨[["a", "csvlinter.schema.json"]]⟩ ["a"]).2
     (by decide) (by decide) (by decide)⟩

/-! ## Claim C5 (corrected) -/

/-- C5 counterexample: stdin input `"a,b\nc"` (5 bytes) under a 3-byte
ceiling is not rejected — the engine validates the truncated prefix
`"a,b"` and returns a successful `Results`, while validating the full
input would have found the short row on line 2.  This refutes the claim
that exceeding the ceiling is a fatal operational error. -/
theorem c5_truncated_not_rejected_cex :
    validateStdin none false ',' 3 [97, 44, 98, 10, 99] =
      .ok ⟨"STDIN", 0, [], [], true, false⟩ ∧
    3 < ([97, 44, 98, 10, 99] : List Nat).length ∧
    goValidateBytes none false "STDIN" ',' [97, 44, 98, 10, 99] =
      .ok ⟨"STDIN", 1, [⟨2, "row", "column count mismatch: expected 2, got 1",
        "", "structure"⟩], [], false, false⟩ :=
  ⟨rfl, by decide, rfl⟩

/-- C5 as amended: the stdin ceiling (default 10 MiB, caller-
configurable) is enforced by `io.LimitReader`, which silently truncates:
the engine validates the first `maxSize` bytes and no size-limit error
is produced; input within the ceiling is validated unchanged. -/
theorem c5_stdin_silent_truncation (sv : SchemaV) (ff : Bool) (delim : Char)
    (maxSize : Nat) (input : List Nat) :
    validateStdin sv ff delim maxSize input =
      goValidateBytes sv ff "STDIN" delim (input.take maxSize) ∧
    (input.length ≤ maxSize →
      validateStdin sv ff delim maxSize input =
        goValidateBytes sv ff "STDIN" delim input) ∧
    stdinMaxDefault = 10 * 1024 * 1024 := by
  refine ⟨rfl, ?_, rfl⟩
  intro h
  rw [validateStdin, List.take_of_length_le h]

/-- C5 as amended, exercised at a one-byte input within a 10-byte
ceiling. -/
theorem c5_stdin_silent_truncation_witness :
    validateStdin none false ',' 10 [97] =
      goValidateBytes none false "STDIN" ',' (([97] : List Nat).take 10) ∧
    validateStdin none false ',' 10 [97] = goValidateBytes none false "STDIN" ',' [97] :=
  ⟨(c5_stdin_silent_truncation none false ',' 10 [97]).1,
   (c5_stdin_silent_truncation none false ',' 10 [97]).2.1 (by decide)⟩

/-! ## Claim C8 (code bug) -/

/-- The failing input for C8: 4095 ASCII bytes followed by the two-byte
character U+00E9 (bytes `0xC3 0xA9`, i.e. `195, 169`), whose bytes
straddle the 4096-byte buffer boundary. -/
def c8bad : List Nat := List.replicate 4095 97 ++ [195, 169]

/-- C8.  The input `c8bad` is valid UTF-8 as a whole (the buffered
`ValidateUTF8` accepts it), but the file-based `ValidateUTF8` checks
each 4096-byte chunk independently, the first chunk ends in the middle
of the two-byte character, and the fully valid input is rejected as an
encoding error. -/
theorem c8_chunk_boundary_rejects_valid_input :
    validateUTF8Buffered c8bad = true ∧ validateUTF8File c8bad = false := by
  have hlen : (List.replicate 4095 (97 : Nat)).length ≤ 4096 := by
    rw [List.length_replicate]
    omega
  have hne : c8bad ≠ [] := by
    show List.replicate 4095 (97 : Nat) ++ [195, 169] ≠ []
    intro h
    have h1 := congrArg List.length h
    rw [List.length_append, List.length_replicate] at h1
    simp at h1
  constructor
  · show utf8Valid (List.replicate 4095 97 ++ [195, 169]) = true
    rw [utf8Valid_replicate97]
    decide
  · have htake : c8bad.take 4096 = List.replicate 4095 97 ++ [195] := by
      show (List.replicate 4095 (97 : Nat) ++ [195, 169]).take 4096 = _
      rw [List.take_append_eq_append_take, List.take_of_length_le hlen,
        List.length_replicate]
      congr 1
    have hdrop : c8bad.drop 4096 = [169] := by
      show (List.replicate 4095 (97 : Nat) ++ [195, 169]).drop 4096 = _
      rw [List.drop_append_eq_append_drop, List.drop_eq_nil_of_le hlen,
        List.length_replicate]
      decide
    show (bufSplit c8bad).all utf8Valid = false
    rw [bufSplit_unfold, if_neg hne, htake, hdrop, bufSplit_unfold,
      if_neg (by decide)]
    have hnil : bufSplit (([169] : List Nat).drop 4096) = [] := by
      rw [show (([169] : List Nat).drop 4096) = [] from by decide, bufSplit_unfold,
        if_pos rfl]
    rw [hnil]
    simp only [List.all_cons, List.all_nil]
    rw [utf8Valid_replicate97]
    decide

end Csvlinter
